import Mathlib

/-!
Verification of the checkers allocation-sanitizer core (the event model and
the validating state machine, called the Ledger in the specification).

The development embeds, from the source:
  - the Region value and the pointer helpers of lib.rs (saturating addition,
    the modulus alignment test whose divisor may be zero);
  - the validating machine of machine.rs (its local Violation enum, the
    event shape its push function consumes, find_region_overlaps and push),
    with the live-region BTreeMap rendered as a list of regions sorted by
    address, the key of every entry being the ptr field of its region;
  - the event taxonomy of event.rs and the public Violation taxonomy of
    violation.rs;
  - Events::validate, Events::max_memory_used and Events::reserve of
    events.rs.
The machine that events.rs replays events through (a map of live requests
plus a memory_used counter, handling Alloc, Free, AllocZeroed, Realloc,
ReallocNull and the failed events) is not part of the sources; it is
modelled from the specification where marked below.

Rust panics are modelled by Option: a function that can panic returns none
exactly on the inputs where the original panics.
-/

namespace Checkers

/-- Largest value of a 64-bit usize; pointer arithmetic saturates at it. -/
def USIZE_MAX : Nat := 2 ^ 64 - 1

/-- Saturating addition on usize, as Pointer.saturating_add in lib.rs. -/
def satAdd (a b : Nat) : Nat := min (a + b) USIZE_MAX

/-- Pointer.is_aligned_with from lib.rs computes self.0 % n == 0. The Rust
remainder operator panics when n is zero, which none models. -/
def isAlignedWith (p n : Nat) : Option Bool :=
  if n = 0 then none else some (p % n == 0)

/-- A span of address space: machine.rs Region with its ptr, size and
align fields. The Pointer newtype over usize is rendered as Nat. -/
structure Region where
  ptr : Nat
  size : Nat
  align : Nat
deriving DecidableEq

/-- Region.overlaps from machine.rs: self.ptr <= other.ptr and other.ptr
lies at or below the saturated end of self, a closed upper bound. -/
def Region.overlaps (self other : Region) : Bool :=
  decide (self.ptr ≤ other.ptr) && decide (other.ptr ≤ satAdd self.ptr self.size)

/-- Region.is_same_region_as from machine.rs: equal address and size,
alignment ignored. -/
def Region.isSameRegionAs (self other : Region) : Bool :=
  self.ptr == other.ptr && self.size == other.size

namespace MachineRs

/-- Shape of the event enum consumed by machine.rs push: an empty marker,
an allocation and a deallocation, each carrying ptr, size and align. -/
inductive MEvent where
  | empty
  | allocation (ptr size align : Nat)
  | deallocation (ptr size align : Nat)
deriving DecidableEq

/-- The Violation enum defined at the top of machine.rs. -/
inductive MViolation where
  | emptyEvent
  | allocationOverlaps (requested existing : Region)
  | allocationMisaligned (requested : Region)
  | deallocateIncomplete (requested existing : Region)
  | deallocateMisaligned (requested existing : Region)
  | deallocateMissing (requested : Region) (overlaps : List Region)
  | danglingRegion (region : Region)
deriving DecidableEq

/-- The helper find_region_overlaps of machine.rs push. The BTreeMap range
up to and including the needle address iterates in ascending key order and
is cut by take_while on Region.overlaps; the range from the needle address
upward is treated the same way; the two prefixes are chained. The sorted
region list stands for the map, each key being the ptr of its region. -/
def findRegionOverlaps (regions : List Region) (needle : Region) : List Region :=
  (List.takeWhile (fun r => r.overlaps needle)
      (regions.filter (fun r => decide (r.ptr ≤ needle.ptr)))) ++
  (List.takeWhile (fun r => r.overlaps needle)
      (regions.filter (fun r => decide (needle.ptr ≤ r.ptr))))

/-- Insertion into the sorted region list, standing for BTreeMap insert on
a key that is not present. -/
def sortedInsert (regions : List Region) (r : Region) : List Region :=
  match regions with
  | [] => [r]
  | x :: xs => if r.ptr ≤ x.ptr then r :: x :: xs else x :: sortedInsert xs r

/-- Machine::push from machine.rs over the single regions field of the
machine. The returned pair carries the Result and the regions map at the
moment push returns; none models a panic: the remainder-by-zero panic
inside is_aligned_with, and the debug assertion that the inserted key was
not already present. -/
def push (regions : List Region) (e : MEvent) :
    Option (Except MViolation Unit × List Region) :=
  match e with
  | .empty => some (.error .emptyEvent, regions)
  | .allocation ptr size align =>
    let requested : Region := ⟨ptr, size, align⟩
    match isAlignedWith ptr align with
    | none => none
    | some aligned =>
      if !aligned then
        some (.error (.allocationMisaligned requested), regions)
      else
        match (findRegionOverlaps regions requested).head? with
        | some existing => some (.error (.allocationOverlaps requested existing), regions)
        | none =>
          if (regions.find? (fun r => r.ptr == ptr)).isSome then
            none
          else
            some (.ok (), sortedInsert regions requested)
  | .deallocation ptr size align =>
    let requested : Region := ⟨ptr, size, align⟩
    match regions.find? (fun r => r.ptr == ptr) with
    | some existing =>
      if !existing.isSameRegionAs requested then
        some (.error (.deallocateIncomplete requested existing), regions)
      else if existing.align != requested.align then
        some (.error (.deallocateMisaligned requested existing), regions)
      else
        some (.ok (), regions.eraseP (fun r => r.ptr == ptr))
    | none =>
      some (.error (.deallocateMissing requested (findRegionOverlaps regions requested)), regions)

/-- Strict ascending order of the addresses in the region list, the
ordering invariant of the BTreeMap it stands for. -/
def sortedB : List Region → Bool
  | [] => true
  | [_] => true
  | a :: b :: rest => decide (a.ptr < b.ptr) && sortedB (b :: rest)

/-- Well-formed machine state: addresses strictly ascending and every
address a representable usize value. Reachable machine states satisfy it. -/
def wfB (regions : List Region) : Bool :=
  sortedB regions && regions.all (fun r => decide (r.ptr ≤ USIZE_MAX))

/-- Marks the events on which push reaches the alignment test with a zero
divisor: true unless the event is an allocation with align zero. -/
def allocAlignNonzero : MEvent → Bool
  | .allocation _ _ align => align != 0
  | _ => true

end MachineRs

/-- Metadata about an allocation request, from lib.rs: a region plus an
opaque optional backtrace, which the core never inspects. -/
structure Request where
  region : Region
  backtrace : Option Unit
deriving DecidableEq

/-- Description of a zeroed allocation, from lib.rs: the tri-state
is_zeroed flag (Option Bool, none meaning unknown) and the request. -/
structure AllocZeroed where
  isZeroed : Option Bool
  request : Request
deriving DecidableEq

/-- Description of a reallocation, from lib.rs: the tri-state is_relocated
flag, the freed region, the allocated region and the backtrace. -/
structure Realloc where
  isRelocated : Option Bool
  free : Region
  alloc : Region
  backtrace : Option Unit
deriving DecidableEq

/-- Description of a null reallocation, from lib.rs. -/
structure ReallocNull where
  backtrace : Option Unit
deriving DecidableEq

/-- The event enum of event.rs. -/
inductive Event where
  | alloc (request : Request)
  | free (request : Request)
  | allocZeroed (a : AllocZeroed)
  | realloc (r : Realloc)
  | allocFailed
  | allocZeroedFailed
  | reallocNull (r : ReallocNull)
  | reallocFailed
deriving DecidableEq

/-- Event::is_failed from event.rs: true on AllocFailed, AllocZeroedFailed
and ReallocFailed. -/
def Event.isFailed : Event → Bool
  | .allocFailed => true
  | .allocZeroedFailed => true
  | .reallocFailed => true
  | _ => false

/-- The public violation enum of violation.rs. -/
inductive Violation where
  | conflictingAlloc (request existing : Request)
  | nonZeroedAlloc (alloc : Request)
  | nonCopiedRealloc (realloc : Realloc)
  | reallocNull (realloc : ReallocNull)
  | misalignedAlloc (alloc : Request)
  | incompleteFree (request existing : Request)
  | misalignedFree (request existing : Request)
  | missingFree (request : Request)
  | leaked (alloc : Request)
deriving DecidableEq

/-- Overlap of two regions as defined in the specification: the address of
one falls within the half-open extent of the other, extents computed with
saturating addition. -/
def Region.overlapsSpec (a b : Region) : Bool :=
  (decide (a.ptr ≤ b.ptr) && decide (b.ptr < satAdd a.ptr a.size)) ||
  (decide (b.ptr ≤ a.ptr) && decide (a.ptr < satAdd b.ptr b.size))

/-- Alignment test of the specification: address modulo alignment is zero,
with the total natural-number modulus. -/
def alignedTo (p a : Nat) : Bool := p % a == 0

/-- Modelled from the spec: the state of the machine that events.rs
replays events through, whose implementation is missing from the sources.
Section 3 of the specification describes it as a map from address to the
currently live request plus a running memory_in_use counter; the map is
rendered as a list of requests keyed by the ptr of their region, with the
ordering of entries immaterial to the claims proved here. -/
structure Ledger where
  regions : List Request
  memoryUsed : Nat
deriving DecidableEq

/-- The empty machine state before the first event. -/
def Ledger.init : Ledger := ⟨[], 0⟩

/-- Modelled from the spec: the Alloc transition of section 4.2. A
misaligned address fails with MisalignedAlloc; a live region overlapping
the requested one fails with ConflictingAlloc naming that region;
otherwise the request is inserted and its size added to memory_in_use. -/
def Ledger.allocStep (m : Ledger) (req : Request) : Except Violation Unit × Ledger :=
  if !alignedTo req.region.ptr req.region.align then
    (.error (.misalignedAlloc req), m)
  else
    match m.regions.find? (fun ex => ex.region.overlapsSpec req.region) with
    | some ex => (.error (.conflictingAlloc req ex), m)
    | none => (.ok (), ⟨req :: m.regions, m.memoryUsed + req.region.size⟩)

/-- Modelled from the spec: the Free transition of section 4.2. No live
region keyed at the address fails with MissingFree; a size mismatch fails
with IncompleteFree; an alignment mismatch fails with MisalignedFree;
otherwise the entry is removed and its size subtracted from memory_in_use. -/
def Ledger.freeStep (m : Ledger) (req : Request) : Except Violation Unit × Ledger :=
  match m.regions.find? (fun ex => ex.region.ptr == req.region.ptr) with
  | none => (.error (.missingFree req), m)
  | some ex =>
    if ex.region.size != req.region.size then
      (.error (.incompleteFree req ex), m)
    else if ex.region.align != req.region.align then
      (.error (.misalignedFree req ex), m)
    else
      (.ok (), ⟨m.regions.eraseP (fun e => e.region.ptr == req.region.ptr),
                m.memoryUsed - req.region.size⟩)

/-- Modelled from the spec: the push transition of the replay machine,
section 4.2, whose implementation is missing from the sources. AllocZeroed
with is_zeroed No fails with NonZeroedAlloc and otherwise behaves as
Alloc; Realloc with is_relocated No fails with NonCopiedRealloc and
otherwise applies the Free of its freed region then the Alloc of its
allocated region, propagating either failure, the requests built as by
Realloc::free and Realloc::alloc in lib.rs; ReallocNull always fails; the
failed events always succeed with no state change. The returned pair
carries the result and the state at the moment push returns. -/
def Ledger.push (m : Ledger) (e : Event) : Except Violation Unit × Ledger :=
  match e with
  | .alloc req => m.allocStep req
  | .free req => m.freeStep req
  | .allocZeroed az =>
    if az.isZeroed = some false then (.error (.nonZeroedAlloc az.request), m)
    else m.allocStep az.request
  | .realloc rl =>
    if rl.isRelocated = some false then (.error (.nonCopiedRealloc rl), m)
    else
      match m.freeStep ⟨rl.free, rl.backtrace⟩ with
      | (.ok _, m₁) => m₁.allocStep ⟨rl.alloc, rl.backtrace⟩
      | (.error v, m₁) => (.error v, m₁)
  | .reallocNull rn => (.error (.reallocNull rn), m)
  | .allocFailed => (.ok (), m)
  | .allocZeroedFailed => (.ok (), m)
  | .reallocFailed => (.ok (), m)

/-- Machine::trailing_regions: the live requests remaining in the map. -/
def Ledger.trailingRegions (m : Ledger) : List Request := m.regions

/-- Events::validate from events.rs: replay every event through a fresh
machine, collecting every violation produced, then append one Leaked
violation per region still live after the full replay. -/
def validate (evts : List Event) : List Violation :=
  let result := evts.foldl
    (fun (acc : Ledger × List Violation) e =>
      match acc.1.push e with
      | (.ok _, m) => (m, acc.2)
      | (.error v, m) => (m, acc.2 ++ [v]))
    (Ledger.init, [])
  result.2 ++ result.1.trailingRegions.map .leaked

/-- Recursion of Events::max_memory_used from events.rs: push each event,
returning the first violation, and otherwise track the running maximum of
memory_used observed after each push. -/
def maxMemoryUsedGo (m : Ledger) (acc : Nat) : List Event → Except Violation Nat
  | [] => .ok acc
  | e :: rest =>
    match m.push e with
    | (.error v, _) => .error v
    | (.ok _, m') => maxMemoryUsedGo m' (max acc m'.memoryUsed) rest

/-- Events::max_memory_used from events.rs, starting from a fresh machine
and a zero maximum. -/
def maxMemoryUsed (evts : List Event) : Except Violation Nat :=
  maxMemoryUsedGo Ledger.init 0 evts

/-- First violation produced by replaying the events in order, written as
its own recursion to state the fail-fast half of the specification. -/
def firstViolationFrom (m : Ledger) : List Event → Option Violation
  | [] => none
  | e :: rest =>
    match m.push e with
    | (.error v, _) => some v
    | (.ok _, m') => firstViolationFrom m' rest

/-- States of the machine after each event of the whole replay, written as
its own recursion to state the high-water half of the specification. -/
def statesFrom (m : Ledger) : List Event → List Ledger
  | [] => []
  | e :: rest => (m.push e).2 :: statesFrom (m.push e).2 rest

/-- Length and capacity of the Vec backing an Events log. Only the two
quantities that Events::reserve manipulates are modelled. -/
structure EventsBuf where
  len : Nat
  cap : Nat
deriving DecidableEq

/-- Rust Vec::reserve, modelled by its guarantee: after reserving room for
n additional elements the capacity is at least len + n, and a vector is
never shrunk. The model grows to exactly that lower bound, the least
behavior every compliant vector exhibits; in particular reserving zero
additional elements changes nothing, as in Rust. -/
def vecReserve (b : EventsBuf) (additional : Nat) : EventsBuf :=
  ⟨b.len, max b.cap (b.len + additional)⟩

/-- Events::reserve from events.rs: self.data.reserve of the saturating
difference between the argument and the current capacity. -/
def EventsBuf.reserve (b : EventsBuf) (n : Nat) : EventsBuf :=
  vecReserve b (n - b.cap)

/-- A sorted region list stays sorted after dropping its head. -/
theorem sortedB_tail (x : Region) (xs : List Region) (h : MachineRs.sortedB (x :: xs) = true) :
    MachineRs.sortedB xs = true := by
  cases xs with
  | nil => rfl
  | cons y rest =>
    have h' := h
    simp only [MachineRs.sortedB, Bool.and_eq_true] at h'
    exact h'.2

/-- The head of a sorted region list has an address strictly below every
later entry. -/
theorem sortedB_head_lt (xs : List Region) : ∀ (x : Region),
    MachineRs.sortedB (x :: xs) = true → ∀ r ∈ xs, x.ptr < r.ptr := by
  induction xs with
  | nil => intro x _ r hr; cases hr
  | cons y rest ih =>
    intro x h r hr
    have h1 : x.ptr < y.ptr ∧ MachineRs.sortedB (y :: rest) = true := by
      simpa [MachineRs.sortedB] using h
    rcases List.mem_cons.mp hr with rfl | hr'
    · exact h1.1
    · exact lt_trans h1.1 (ih y h1.2 r hr')

/-- In a well-formed machine state holding a region keyed at the needle
address, the upward half of find_region_overlaps is never empty: the
entry keyed at the needle address is the first entry at or above it and
the closed-bound overlap test accepts it. -/
theorem tail_overlap_ne_nil (m : List Region) (r : Region) (p s a : Nat)
    (hwf : MachineRs.wfB m = true) (hm : r ∈ m) (hp : r.ptr = p) :
    List.takeWhile (fun x => x.overlaps ⟨p, s, a⟩)
      (m.filter (fun x => decide (p ≤ x.ptr))) ≠ [] := by
  induction m with
  | nil => cases hm
  | cons x xs ih =>
    have hwf' : MachineRs.sortedB (x :: xs) = true ∧
        ∀ y ∈ x :: xs, y.ptr ≤ USIZE_MAX := by
      simpa [MachineRs.wfB, List.all_eq_true] using hwf
    by_cases hx : p ≤ x.ptr
    · have hxp : x.ptr = p := by
        rcases List.mem_cons.mp hm with rfl | hm'
        · exact hp
        · have := sortedB_head_lt xs x hwf'.1 r hm'
          omega
      have hxmax : x.ptr ≤ USIZE_MAX := hwf'.2 x (List.mem_cons_self x xs)
      have hov : x.overlaps ⟨p, s, a⟩ = true := by
        simp only [Region.overlaps, satAdd, Bool.and_eq_true, decide_eq_true_eq]
        refine ⟨le_of_eq hxp, ?_⟩
        simp only [le_min_iff]
        omega
      simp [List.filter_cons, hx, List.takeWhile_cons, hov]
    · have hrx : r ∈ xs := by
        rcases List.mem_cons.mp hm with rfl | hm'
        · exact absurd (le_of_eq hp.symm) hx
        · exact hm'
      have hwfxs : MachineRs.wfB xs = true := by
        simp only [MachineRs.wfB, List.all_eq_true, Bool.and_eq_true, decide_eq_true_eq]
        exact ⟨sortedB_tail x xs hwf'.1, fun y hy => hwf'.2 y (List.mem_cons_of_mem x hy)⟩
      simpa [List.filter_cons, hx] using ih hwfxs hrx

/-- C1: the claim states that pushing an allocation fails with a
conflicting-allocation violation whenever some live region overlaps the
requested one, including a live region strictly above the requested
address contained in the requested region, and an overlapping region that
is not the lowest-addressed entry at or below the requested address. The
code accepts both: with live region 130..135 the allocation of 120..170 is
granted, and with live regions 0..1 and 100..150 the allocation of
120..130 is granted, although both scenarios contain an overlap under the
half-open definition of the specification. -/
theorem overlap_miss_c1 :
    MachineRs.push [] (.allocation 130 5 1) = some (.ok (), [⟨130, 5, 1⟩]) ∧
    MachineRs.push [⟨130, 5, 1⟩] (.allocation 120 50 1) =
      some (.ok (), [⟨120, 50, 1⟩, ⟨130, 5, 1⟩]) ∧
    Region.overlapsSpec ⟨130, 5, 1⟩ ⟨120, 50, 1⟩ = true ∧
    MachineRs.push [⟨0, 1, 1⟩, ⟨100, 50, 1⟩] (.allocation 120 10 1) =
      some (.ok (), [⟨0, 1, 1⟩, ⟨100, 50, 1⟩, ⟨120, 10, 1⟩]) ∧
    Region.overlapsSpec ⟨100, 50, 1⟩ ⟨120, 10, 1⟩ = true :=
  ⟨rfl, rfl, rfl, rfl, rfl⟩

/-- C2: the claim states that two allocations that do not overlap under
the half-open interval definition never yield a conflicting-allocation
violation, in particular a second allocation at exactly the end of the
first. The code flags exactly that input: after allocating 0..1, the
allocation at address 1 is rejected as overlapping, because the overlap
test of machine.rs closes its upper bound; the half-open definition of
the specification calls these regions disjoint. -/
theorem adjacent_alloc_flagged_c2 :
    MachineRs.push [] (.allocation 0 1 1) = some (.ok (), [⟨0, 1, 1⟩]) ∧
    MachineRs.push [⟨0, 1, 1⟩] (.allocation 1 1 1) =
      some (.error (.allocationOverlaps ⟨1, 1, 1⟩ ⟨0, 1, 1⟩), [⟨0, 1, 1⟩]) ∧
    Region.overlapsSpec ⟨0, 1, 1⟩ ⟨1, 1, 1⟩ = false :=
  ⟨rfl, rfl, rfl⟩

/-- C5 counterexample: pushing an allocation whose alignment is zero makes
the remainder test divide by zero, a panic, so push is not total as the
claim states. -/
theorem push_align_zero_panics_c5_counter :
    MachineRs.push [] (.allocation 0 1 0) = none := rfl

/-- C5 amended: for every well-formed machine state, push never panics on
any event except an allocation with alignment zero: the alignment test
then has a nonzero divisor, and the debug assertion guarding the insert
never fires because an exact key match is always caught by the overlap
scan. -/
theorem push_total_c5 (m : List Region) (e : MachineRs.MEvent)
    (hwf : MachineRs.wfB m = true) (ha : MachineRs.allocAlignNonzero e = true) :
    (MachineRs.push m e).isSome = true := by
  cases e with
  | empty => rfl
  | deallocation p s a =>
    simp only [MachineRs.push]
    cases m.find? (fun r => r.ptr == p) with
    | none => rfl
    | some ex =>
      by_cases h1 : ex.isSameRegionAs ⟨p, s, a⟩ = true
      · by_cases h2 : (ex.align != a) = true
        · simp [h1, h2]
        · simp [h1, h2]
      · simp [h1]
  | allocation p s a =>
    have ha0 : a ≠ 0 := by
      simpa [MachineRs.allocAlignNonzero] using ha
    simp only [MachineRs.push, isAlignedWith, if_neg ha0]
    cases hb : (p % a == 0) with
    | false => rfl
    | true =>
      simp only [Bool.not_true, Bool.false_eq_true, if_false]
      cases hov : (MachineRs.findRegionOverlaps m ⟨p, s, a⟩).head? with
      | some ex => rfl
      | none =>
        have hfind : m.find? (fun r => r.ptr == p) = none := by
          cases hf : m.find? (fun r => r.ptr == p) with
          | none => rfl
          | some r =>
            have hmem : r ∈ m := List.mem_of_find?_eq_some hf
            have hrp : r.ptr = p := by
              have := List.find?_some hf
              simpa using this
            have hnil : MachineRs.findRegionOverlaps m ⟨p, s, a⟩ = [] :=
              List.head?_eq_none_iff.mp hov
            have htail := tail_overlap_ne_nil m r p s a hwf hmem hrp
            exact absurd (List.append_eq_nil.mp hnil).2 htail
        simp [hfind]

/-- C5 witness: a concrete well-formed state and nonzero-alignment event
on which push returns a value. -/
theorem push_total_c5_witness :
    MachineRs.wfB [⟨0, 4, 4⟩] = true ∧
    MachineRs.allocAlignNonzero (.allocation 16 4 4) = true ∧
    (MachineRs.push [⟨0, 4, 4⟩] (.allocation 16 4 4)).isSome = true :=
  ⟨by decide, by decide,
    push_total_c5 [⟨0, 4, 4⟩] (.allocation 16 4 4) (by decide) (by decide)⟩

/-- C10: pushing the Empty event always fails with the EmptyEvent
violation and leaves the live-region map unchanged, for every state. -/
theorem empty_event_c10 (m : List Region) :
    MachineRs.push m .empty = some (.error .emptyEvent, m) := rfl

/-- C4: the deallocation transition checks, in order, that a live region
is keyed at the requested address, that its size matches, and that its
alignment matches, failing with the missing, incomplete and misaligned
violations respectively, and otherwise removes the entry; every failing
case returns the live-region map unchanged. -/
theorem free_transition_c4 (m : List Region) (p s a : Nat) :
    (m.find? (fun r => r.ptr == p) = none →
      MachineRs.push m (.deallocation p s a) =
        some (.error (.deallocateMissing ⟨p, s, a⟩
          (MachineRs.findRegionOverlaps m ⟨p, s, a⟩)), m)) ∧
    (∀ ex, m.find? (fun r => r.ptr == p) = some ex → ex.size ≠ s →
      MachineRs.push m (.deallocation p s a) =
        some (.error (.deallocateIncomplete ⟨p, s, a⟩ ex), m)) ∧
    (∀ ex, m.find? (fun r => r.ptr == p) = some ex → ex.size = s → ex.align ≠ a →
      MachineRs.push m (.deallocation p s a) =
        some (.error (.deallocateMisaligned ⟨p, s, a⟩ ex), m)) ∧
    (∀ ex, m.find? (fun r => r.ptr == p) = some ex → ex.size = s → ex.align = a →
      MachineRs.push m (.deallocation p s a) =
        some (.ok (), m.eraseP (fun r => r.ptr == p))) := by
  refine ⟨?_, ?_, ?_, ?_⟩
  · intro h
    simp [MachineRs.push, h]
  · intro ex h hs
    simp [MachineRs.push, h, Region.isSameRegionAs, hs]
  · intro ex h hs hal
    have hptr : ex.ptr = p := by simpa using List.find?_some h
    simp [MachineRs.push, h, Region.isSameRegionAs, hptr, hs, hal]
  · intro ex h hs hal
    have hptr : ex.ptr = p := by simpa using List.find?_some h
    simp [MachineRs.push, h, Region.isSameRegionAs, hptr, hs, hal]

/-- C4 witness: the four transitions of the deallocation rules exercised
on concrete states, each hypothesis discharged by evaluation. -/
theorem free_transition_c4_witness :
    MachineRs.push [⟨8, 4, 4⟩] (.deallocation 5 1 1) =
      some (.error (.deallocateMissing ⟨5, 1, 1⟩
        (MachineRs.findRegionOverlaps [⟨8, 4, 4⟩] ⟨5, 1, 1⟩)), [⟨8, 4, 4⟩]) ∧
    MachineRs.push [⟨8, 4, 4⟩] (.deallocation 8 2 4) =
      some (.error (.deallocateIncomplete ⟨8, 2, 4⟩ ⟨8, 4, 4⟩), [⟨8, 4, 4⟩]) ∧
    MachineRs.push [⟨8, 4, 4⟩] (.deallocation 8 4 2) =
      some (.error (.deallocateMisaligned ⟨8, 4, 2⟩ ⟨8, 4, 4⟩), [⟨8, 4, 4⟩]) ∧
    MachineRs.push [⟨8, 4, 4⟩] (.deallocation 8 4 4) =
      some (.ok (), List.eraseP (fun r => r.ptr == 8) [⟨8, 4, 4⟩]) :=
  ⟨(free_transition_c4 [⟨8, 4, 4⟩] 5 1 1).1 (by decide),
   (free_transition_c4 [⟨8, 4, 4⟩] 8 2 4).2.1 ⟨8, 4, 4⟩ (by decide) (by decide),
   (free_transition_c4 [⟨8, 4, 4⟩] 8 4 2).2.2.1 ⟨8, 4, 4⟩ (by decide) (by decide) (by decide),
   (free_transition_c4 [⟨8, 4, 4⟩] 8 4 4).2.2.2 ⟨8, 4, 4⟩ (by decide) (by decide) (by decide)⟩

/-- C3 counterexample: for the region at address 1 with alignment 2 the
claim fails: its allocation is misaligned, so validating the alloc-free
pair yields a misaligned-allocation violation followed by a missing-free
violation rather than no violations. -/
theorem misaligned_roundtrip_c3_counter :
    validate [.alloc ⟨⟨1, 1, 2⟩, none⟩, .free ⟨⟨1, 1, 2⟩, none⟩] =
      [.misalignedAlloc ⟨⟨1, 1, 2⟩, none⟩, .missingFree ⟨⟨1, 1, 2⟩, none⟩] ∧
    validate [.alloc ⟨⟨1, 1, 2⟩, none⟩, .free ⟨⟨1, 1, 2⟩, none⟩] ≠ [] :=
  ⟨rfl, by decide⟩

/-- C3 amended: for every region whose address is a multiple of its
alignment, validating the log of one Alloc of the region followed by one
Free of exactly that region yields no violations and the leak sweep is
empty. -/
theorem alloc_free_roundtrip_c3 (r : Region) (b₁ b₂ : Option Unit)
    (hal : r.ptr % r.align = 0) :
    validate [.alloc ⟨r, b₁⟩, .free ⟨r, b₂⟩] = [] := by
  simp [validate, Ledger.push, Ledger.allocStep, Ledger.freeStep, alignedTo, hal,
    Ledger.init, Ledger.trailingRegions, List.eraseP]

/-- C3 witness: the round trip on a concrete aligned region. -/
theorem alloc_free_roundtrip_c3_witness :
    (16 : Nat) % 8 = 0 ∧
    validate [.alloc ⟨⟨16, 16, 8⟩, none⟩, .free ⟨⟨16, 16, 8⟩, none⟩] = [] :=
  ⟨by decide, alloc_free_roundtrip_c3 ⟨16, 16, 8⟩ none none (by decide)⟩

/-- C6: a Realloc with is_relocated No fails with NonCopiedRealloc and
changes nothing; with any other tri-state value it equals pushing the
Free of the freed region and then, on success, the Alloc of the new
region, propagating either failure; and the Unknown tri-state behaves
exactly as Yes, so it never itself causes a violation. -/
theorem realloc_semantics_c6 (m : Ledger) (rl : Realloc) :
    (rl.isRelocated = some false →
      m.push (.realloc rl) = (.error (.nonCopiedRealloc rl), m)) ∧
    (rl.isRelocated ≠ some false →
      m.push (.realloc rl) =
        match m.push (.free ⟨rl.free, rl.backtrace⟩) with
        | (.ok _, m₁) => m₁.push (.alloc ⟨rl.alloc, rl.backtrace⟩)
        | (.error v, m₁) => (.error v, m₁)) ∧
    (m.push (.realloc ⟨none, rl.free, rl.alloc, rl.backtrace⟩) =
      m.push (.realloc ⟨some true, rl.free, rl.alloc, rl.backtrace⟩)) := by
  refine ⟨fun h => by simp [Ledger.push, h], fun h => ?_, by simp [Ledger.push]⟩
  simp only [Ledger.push, if_neg h]

/-- C6 witness: the two realloc behaviors on concrete inputs, the
tri-state hypotheses discharged by evaluation. -/
theorem realloc_semantics_c6_witness :
    Ledger.push Ledger.init (.realloc ⟨some false, ⟨0, 1, 1⟩, ⟨8, 2, 1⟩, none⟩) =
      (.error (.nonCopiedRealloc ⟨some false, ⟨0, 1, 1⟩, ⟨8, 2, 1⟩, none⟩), Ledger.init) ∧
    Ledger.push Ledger.init (.realloc ⟨some true, ⟨0, 1, 1⟩, ⟨8, 2, 1⟩, none⟩) =
      (match Ledger.push Ledger.init (.free ⟨⟨0, 1, 1⟩, none⟩) with
       | (.ok _, m₁) => m₁.push (.alloc ⟨⟨8, 2, 1⟩, none⟩)
       | (.error v, m₁) => (.error v, m₁)) :=
  ⟨(realloc_semantics_c6 Ledger.init ⟨some false, ⟨0, 1, 1⟩, ⟨8, 2, 1⟩, none⟩).1 rfl,
   (realloc_semantics_c6 Ledger.init ⟨some true, ⟨0, 1, 1⟩, ⟨8, 2, 1⟩, none⟩).2.1 (by decide)⟩

/-- C7: pushing any failed-request event always succeeds and leaves the
whole machine state, live-region map and memory counter, unchanged. -/
theorem failed_events_inert_c7 (m : Ledger) (e : Event) (h : e.isFailed = true) :
    m.push e = (.ok (), m) := by
  cases e <;> simp_all [Event.isFailed, Ledger.push]

/-- C7 witness: the AllocFailed event on the fresh machine. -/
theorem failed_events_inert_c7_witness :
    Event.isFailed .allocFailed = true ∧
    Ledger.push Ledger.init .allocFailed = (.ok (), Ledger.init) :=
  ⟨rfl, failed_events_inert_c7 Ledger.init .allocFailed rfl⟩

/-- The event log of the worked example of the specification for
max_memory_used. -/
def exampleLogC8 : List Event :=
  [.alloc ⟨⟨0x10, 0x10, 1⟩, none⟩, .alloc ⟨⟨0x20, 0x10, 1⟩, none⟩,
   .free ⟨⟨0x10, 0x10, 1⟩, none⟩]

/-- Recursion lemma for C8: the implemented recursion agrees with the
fail-fast and high-water decomposition for every start state and running
maximum. -/
theorem maxMemoryUsedGo_spec (evts : List Event) : ∀ (m : Ledger) (acc : Nat),
    maxMemoryUsedGo m acc evts =
      match firstViolationFrom m evts with
      | some v => .error v
      | none => .ok (((statesFrom m evts).map Ledger.memoryUsed).foldl max acc) := by
  induction evts with
  | nil => intro m acc; rfl
  | cons e rest ih =>
    intro m acc
    cases hp : m.push e with
    | mk r m' =>
      cases r with
      | error v => simp [maxMemoryUsedGo, firstViolationFrom, hp]
      | ok u => simp [maxMemoryUsedGo, firstViolationFrom, statesFrom, hp, ih]

/-- C8: max_memory_used returns the first violation of the replay when one
occurs and otherwise the high-water mark of memory in use observed across
the whole replay, and on the worked example log it returns 0x20. -/
theorem max_memory_used_c8 :
    maxMemoryUsed exampleLogC8 = .ok 0x20 ∧
    ∀ evts : List Event,
      maxMemoryUsed evts =
        match firstViolationFrom Ledger.init evts with
        | some v => .error v
        | none =>
          .ok (((statesFrom Ledger.init evts).map Ledger.memoryUsed).foldl max 0) :=
  ⟨rfl, fun evts => maxMemoryUsedGo_spec evts Ledger.init 0⟩

/-- C9 counterexample: a full log of length one and capacity one, asked to
reserve one more event, keeps capacity one, below length plus one: the
saturating difference against the current capacity treats the argument as
a total-capacity target, not as extra headroom. -/
theorem reserve_c9_counter :
    (EventsBuf.reserve ⟨1, 1⟩ 1).cap = 1 ∧ ¬ (1 + 1 ≤ (EventsBuf.reserve ⟨1, 1⟩ 1).cap) :=
  ⟨rfl, by decide⟩

/-- C9 amended: reserve never shrinks the capacity, and after reserve of n
the capacity is at least the length plus the saturating difference of n
and the prior capacity, the guarantee the code actually requests from the
backing vector. -/
theorem reserve_capacity_c9 (b : EventsBuf) (n : Nat) :
    b.cap ≤ (b.reserve n).cap ∧ b.len + (n - b.cap) ≤ (b.reserve n).cap := by
  simp only [EventsBuf.reserve, vecReserve]
  constructor <;> omega

end Checkers
